import Mathlib

/-!
Verification of the dropfiles chunked-upload protocol.

Shallow embedding of:
- frontend/src/utils/file-upload.util.ts  (FileUploader: chunk addressing,
  retry loop, cancellation/abort guard)
- backend/src/domains/files/files.controller.ts (fileController: initiate,
  recordChunk, complete, abort)
- backend/src/shared/utils/prisma.util.ts (PrismaUtil: table mutations)
- backend/src/shared/utils/sqs.util.ts (SqsUtil.processS3Record, decodeS3Key)

Database tables are modelled as lists of rows; the unique primary keys of the
schema (metadata.file_id, chunks (file_id, index)) appear as Nodup hypotheses
where a theorem needs them.  External collaborators (S3, the network) are
modelled by injected outcome flags, and their visible side effects (open
multipart uploads) are tracked in the state so that claims about cleanup can
be stated.
-/

namespace Dropfiles

/-! ### Constants (files.controller.ts lines 13-15) -/

def CHUNK_SIZE : Nat := 5 * 1024 * 1024

def MAX_FILE_SIZE : Nat := 1 * 1024 * 1024 * 1024

def REDIS_TTL : Nat := 24 * 60 * 60

/-! ### Chunk addressing

`numParts` embeds `Math.ceil(fileSizeBytes / CHUNK_SIZE)` (server, line 53)
and `Math.ceil(file.size / chunkSize)` (client constructor, line 32); on
naturals the ceiling of the exact division is `(size + partSize - 1) / partSize`.
-/

def numParts (size partSize : Nat) : Nat := (size + partSize - 1) / partSize

/-- Client `FileUploader.getPart` (file-upload.util.ts lines 40-44), start of
the sliced byte range; `partNumber` is 1-based in the source. -/
def getPartStart (partSize partNumber : Nat) : Nat := (partNumber - 1) * partSize

/-- Client `FileUploader.getPart`, exclusive end of the sliced byte range:
`Math.min(start + this.chunkSize, this.file.size)`. -/
def getPartEnd (size partSize partNumber : Nat) : Nat :=
  min (getPartStart partSize partNumber + partSize) size

/-- Length of the client part with zero-based index `i` (the blob returned by
`getPart (i+1)`). -/
def partLen (size partSize i : Nat) : Nat :=
  getPartEnd size partSize (i + 1) - getPartStart partSize (i + 1)

/-- Per-chunk size the server computes at initiate (files.controller.ts lines
87-96): `isLast ? fileSizeBytes - i * CHUNK_SIZE : CHUNK_SIZE`, with the part
size kept as a parameter; JS subtraction is exact, hence the Int result. -/
def serverChunkSize (size partSize i : Nat) : Int :=
  if i = numParts size partSize - 1 then (size : Int) - (i : Int) * (partSize : Int)
  else (partSize : Int)

/-! ### Data model (prisma migration 20251115180140_init) -/

inductive FileStatus where
  | UPLOADING | UPLOADED | FAILED
deriving DecidableEq, Repr

inductive ChunkStatus where
  | PENDING | COMPLETED | FAILED
deriving DecidableEq, Repr

structure FileMeta where
  fileId : String
  fileName : String
  mimeType : String
  size : Option Int
  s3Key : String
  status : FileStatus
  userId : String
deriving DecidableEq, Repr

structure ChunkRow where
  fileId : String
  chunkIndex : Nat
  size : Int
  s3Key : String
  checksum : Option String
  status : ChunkStatus
deriving DecidableEq, Repr

/-- Value cached in Redis under `upload:{uploadId}` (files.controller.ts lines
66-74): `JSON.stringify({bucket, key})`, modelled structurally. -/
structure SessionVal where
  bucket : String
  key : String
deriving DecidableEq, Repr

/-- Whole-system state: the two durable tables, the Redis cache, and the set of
multipart uploads currently open at the object store (by uploadId). -/
structure SysState where
  files : List FileMeta
  chunks : List ChunkRow
  redis : List (String × SessionVal)
  openUploads : List String
deriving DecidableEq, Repr

/-! ### Table primitives (prisma.util.ts) -/

/-- `prisma.fileMetadata.findFirst / findUnique ({where: {fileId}})`. -/
def findFile (fid : String) (fs : List FileMeta) : Option FileMeta :=
  fs.find? (fun m => m.fileId == fid)

/-- `prisma.fileMetadata.findUnique({where: {s3Key}})` (sqs.util.ts line 149). -/
def findFileByKey (key : String) (fs : List FileMeta) : Option FileMeta :=
  fs.find? (fun m => m.s3Key == key)

/-- Row-level effect of `prisma.fileMetadata.update({where: {fileId}, data:
{status}})` on one row. -/
def setStatusFun (fid : String) (s : FileStatus) (m : FileMeta) : FileMeta :=
  if m.fileId == fid then { m with status := s } else m

/-- `prisma.fileMetadata.update({where: {fileId}, data: {status}})`
(`PrismaUtil.recordUploadedMetadata` and friends); `none` models the P2025
"record not found" rejection. -/
def updateFileStatus (fid : String) (s : FileStatus) (fs : List FileMeta) :
    Option (List FileMeta) :=
  if (findFile fid fs).isSome then some (fs.map (setStatusFun fid s))
  else none

/-- Row-level effect of the reconciler's update: status to `UPLOADED` and, when
the event carried a truthy size, the size overwritten too. -/
def uploadedByKeyFun (key : String) (evSize : Option Int) (m : FileMeta) : FileMeta :=
  if m.s3Key == key then
    { m with
      status := FileStatus.UPLOADED
      size := match evSize with
        | some v => if v ≠ 0 then some v else m.size
        | none => m.size }
  else m

/-- The reconciler's `prisma.fileMetadata.update({where: {s3Key}, data:
{status: UPLOADED, ...(size && {size: parseInt(size)})}})` (sqs.util.ts lines
161-167). -/
def updateFileUploadedByKey (key : String) (evSize : Option Int)
    (fs : List FileMeta) : Option (List FileMeta) :=
  if (findFileByKey key fs).isSome then some (fs.map (uploadedByKeyFun key evSize))
  else none

/-- `prisma.fileMetadata.delete({where: {fileId}})` with the cascade to chunks
declared in the migration (`ON DELETE CASCADE`); `none` models P2025. -/
def deleteFileCascade (fid : String) (st : SysState) : Option SysState :=
  if (findFile fid st.files).isSome then
    some { st with
      files := st.files.filter (fun m => !(m.fileId == fid))
      chunks := st.chunks.filter (fun c => !(c.fileId == fid)) }
  else none

/-- `prisma.chunk.find` by the unique composite key `(fileId, chunkIndex)`. -/
def findChunk (fid : String) (idx : Nat) (cs : List ChunkRow) : Option ChunkRow :=
  cs.find? (fun c => c.fileId == fid && c.chunkIndex == idx)

/-- Row-level effect of `PrismaUtil.updateChunk` on one row. -/
def completeChunkFun (fid : String) (idx : Nat) (etag : String) (c : ChunkRow) : ChunkRow :=
  if c.fileId == fid && c.chunkIndex == idx then
    { c with checksum := some etag, status := ChunkStatus.COMPLETED }
  else c

/-- `PrismaUtil.updateChunk` (prisma.util.ts lines 170-185):
`prisma.chunk.update({where: {fileId_chunkIndex}, data: {checksum: etag,
status: COMPLETED}})`; `none` models P2025 when no row exists at the key. -/
def updateChunk (fid : String) (idx : Nat) (etag : String) (cs : List ChunkRow) :
    Option (List ChunkRow) :=
  if (findChunk fid idx cs).isSome then some (cs.map (completeChunkFun fid idx etag))
  else none

/-- Redis `get` on an association list (redis.util.ts exposes plain ioredis
`get`/`set`/`del`). -/
def rdGet (k : String) (r : List (String × SessionVal)) : Option SessionVal :=
  (r.find? (fun p => p.1 == k)).map Prod.snd

/-- Redis `set` (overwrite any previous value at the key). -/
def rdSet (k : String) (v : SessionVal) (r : List (String × SessionVal)) :
    List (String × SessionVal) :=
  (k, v) :: r.filter (fun p => !(p.1 == k))

/-- Redis `del`. -/
def rdDel (k : String) (r : List (String × SessionVal)) :
    List (String × SessionVal) :=
  r.filter (fun p => !(p.1 == k))

/-! ### Reconciler key decoding (sqs.util.ts lines 76-84) -/

def hexVal (c : Char) : Option Nat :=
  if '0' ≤ c ∧ c ≤ '9' then some (c.toNat - '0'.toNat)
  else if 'a' ≤ c ∧ c ≤ 'f' then some (c.toNat - 'a'.toNat + 10)
  else if 'A' ≤ c ∧ c ≤ 'F' then some (c.toNat - 'A'.toNat + 10)
  else none

/-- Percent-decoding underlying `decodeURIComponent`; `none` models the thrown
`URIError` on a malformed escape.  (`decodeURIComponent` additionally validates
multi-byte UTF-8 escape sequences; that refinement is immaterial to the claims,
which never compare decoded multi-byte keys.) -/
def percentDecode : List Char → Option (List Char)
  | [] => some []
  | '%' :: h :: l :: rest =>
    match hexVal h, hexVal l with
    | some a, some b => (percentDecode rest).map (fun cs => Char.ofNat (16 * a + b) :: cs)
    | _, _ => none
  | '%' :: _ => none
  | c :: rest => (percentDecode rest).map (fun cs => c :: cs)

/-- `rawKey.replace(/\x2b/g, "%20")` on the character list: the pattern is the
single character `+`, so the global replace substitutes each occurrence. -/
def plusToPct : List Char → List Char
  | [] => []
  | '+' :: rest => '%' :: '2' :: '0' :: plusToPct rest
  | c :: rest => c :: plusToPct rest

/-- `SqsUtil.decodeS3Key`: normalize `+` to `%20`, decode, and on a decoding
error fall back to the raw key. -/
def decodeS3Key (rawKey : String) : String :=
  let plusNormalized := String.mk (plusToPct rawKey.toList)
  match percentDecode plusNormalized.toList with
  | some cs => String.mk cs
  | none => rawKey

/-! ### Upload coordinator endpoints (files.controller.ts) -/

/-- `config.aws.bucket`, opaque to the protocol. -/
def awsBucket : String := "dropfiles-bucket"

structure InitiateReq where
  file_id : String
  file_name : String
  file_type : String
  file_size : Int
  user_id : String
deriving DecidableEq, Repr

/-- Injected outcomes of the external collaborators touched by `getUploadUrls`:
the object store's multipart-initiate (`none` = failure), the presigning batch,
the durable transaction's infrastructure, and `Date.now()`. -/
structure InitEnv where
  s3UploadId : Option String
  presignOk : Bool
  txnOk : Bool
  nowMs : Nat
deriving DecidableEq, Repr

/-- `fileController.getUploadUrls` (lines 18-110).  Returns the HTTP status and
the post-state.  The `prisma.$transaction` block commits the FileMetadata row
and the chunk rows together; any failure inside it (injected infrastructure
failure, or the unique-PK violation on `file_id`) rolls the whole block back,
which the surrounding catch turns into a 500. -/
def initiate (env : InitEnv) (req : InitiateReq) (st : SysState) : Nat × SysState :=
  if req.file_id = "" ∨ req.file_name = "" ∨ req.file_type = "" ∨
      req.file_size = 0 ∨ req.user_id = "" then (400, st)
  else if req.file_size ≤ 0 then (400, st)
  else if req.file_size > (MAX_FILE_SIZE : Int) then (400, st)
  else
    match env.s3UploadId with
    | none => (500, st)
    | some uploadId =>
      let s3Key := "dropbox/" ++ req.user_id ++ "/" ++ toString env.nowMs ++ "-" ++
        req.file_name
      let st1 : SysState := { st with openUploads := uploadId :: st.openUploads }
      if ¬ env.presignOk then (500, st1)
      else
        let fileSizeBytes := req.file_size.toNat
        let nParts := numParts fileSizeBytes CHUNK_SIZE
        let st2 : SysState :=
          { st1 with redis := rdSet ("upload:" ++ uploadId) ⟨awsBucket, s3Key⟩ st1.redis }
        if ¬ env.txnOk then (500, st2)
        else if (findFile req.file_id st2.files).isSome then (500, st2)
        else
          let meta : FileMeta :=
            ⟨req.file_id, req.file_name, req.file_type, some req.file_size, s3Key,
              FileStatus.UPLOADING, req.user_id⟩
          let newChunks := (List.range nParts).map fun i =>
            (⟨req.file_id, i, serverChunkSize fileSizeBytes CHUNK_SIZE i, s3Key,
              none, ChunkStatus.PENDING⟩ : ChunkRow)
          (200, { st2 with
            files := st2.files ++ [meta]
            chunks := st2.chunks ++ newChunks })

/-- `fileController.recordChunkUpload` (lines 112-127); `chunk_index = none`
models the body field being `undefined`.  A P2025 from `PrismaUtil.updateChunk`
lands in the generic catch and becomes a 500. -/
def recordChunkUpload (file_id : String) (chunk_index : Option Nat) (etag : String)
    (st : SysState) : Nat × SysState :=
  match chunk_index with
  | none => (400, st)
  | some idx =>
    if file_id = "" ∨ etag = "" then (400, st)
    else
      match updateChunk file_id idx etag st.chunks with
      | some cs => (200, { st with chunks := cs })
      | none => (500, st)

structure UploadPart where
  PartNumber : Nat
  ETag : String
deriving DecidableEq, Repr

/-- `fileController.completeUpload` (lines 129-159); `s3ok` injects the outcome
of the object store's multipart-complete call (which, on success, closes the
multipart upload), `parts = none` models a non-array `parts` field. -/
def completeUpload (s3ok : Bool) (uploadId : String) (parts : Option (List UploadPart))
    (fileId : String) (st : SysState) : Nat × SysState :=
  if uploadId = "" ∨ parts.isNone ∨ fileId = "" then (400, st)
  else
    match rdGet ("upload:" ++ uploadId) st.redis with
    | none => (404, st)
    | some _ =>
      if ¬ s3ok then (500, st)
      else
        let st1 : SysState := { st with openUploads := st.openUploads.erase uploadId }
        match updateFileStatus fileId FileStatus.UPLOADED st1.files with
        | none => (500, st1)
        | some fs =>
          (200, { st1 with files := fs, redis := rdDel ("upload:" ++ uploadId) st1.redis })

/-- `fileController.abortUpload` (lines 190-277).  When no metadata row exists
the handler returns success immediately (before the Redis delete).  Otherwise:
Redis delete, metadata delete with cascade (P2025 swallowed), then best-effort
S3 abort guarded by `if (s3_key)` with every S3 error swallowed. -/
def abortUpload (uploadId file_id : String) (st : SysState) : Nat × SysState :=
  if uploadId = "" ∨ file_id = "" then (400, st)
  else
    match findFile file_id st.files with
    | none => (200, st)
    | some meta =>
      let st1 : SysState := { st with redis := rdDel ("upload:" ++ uploadId) st.redis }
      let st2 : SysState :=
        match deleteFileCascade file_id st1 with
        | some s => s
        | none => st1
      let st3 : SysState :=
        if meta.s3Key ≠ "" then { st2 with openUploads := st2.openUploads.erase uploadId }
        else st2
      (200, st3)

/-! ### Event reconciler (sqs.util.ts lines 126-186) -/

/-- Canonical content of one normalized S3 record: `record?.s3?.object?.key`
and `record?.s3?.object?.size`. -/
structure S3Record where
  key : Option String
  size : Option Int
deriving DecidableEq, Repr

/-- `SqsUtil.processS3Record`: the Bool is `true` iff processing did not throw
(a missing key or unknown object key are logged skips, not errors). -/
def processS3Record (r : S3Record) (st : SysState) : Bool × SysState :=
  match r.key with
  | none => (true, st)
  | some rawKey =>
    let s3Key := decodeS3Key rawKey
    match findFileByKey s3Key st.files with
    | none => (true, st)
    | some _ =>
      match updateFileUploadedByKey s3Key r.size st.files with
      | some fs => (true, { st with files := fs })
      | none => (false, st)

/-! ### The operations a FileMetadata row can be subjected to -/

inductive Op where
  | opInitiate (env : InitEnv) (req : InitiateReq)
  | opRecordChunk (file_id : String) (chunk_index : Option Nat) (etag : String)
  | opComplete (s3ok : Bool) (uploadId : String) (parts : Option (List UploadPart))
      (fileId : String)
  | opAbort (uploadId file_id : String)
  | opReconcile (r : S3Record)

def applyOp : Op → SysState → SysState
  | Op.opInitiate env req, st => (initiate env req st).2
  | Op.opRecordChunk f i e, st => (recordChunkUpload f i e st).2
  | Op.opComplete ok u p f, st => (completeUpload ok u p f st).2
  | Op.opAbort u f, st => (abortUpload u f st).2
  | Op.opReconcile r, st => (processS3Record r st).2

def applyOps (ops : List Op) (st : SysState) : SysState :=
  ops.foldl (fun s op => applyOp op s) st

/-! ### Client-side FileUploader (file-upload.util.ts) -/

/-- The uploader's fields relevant to the abort guard: the accumulated
`uploadId`, the `AbortController` signal, the `abortCalled` flag, and an
instrumentation counter of POSTs issued to `/files/abort-upload`. -/
structure UploaderState where
  uploadId : Option String
  signalAborted : Bool
  abortCalled : Bool
  abortRequests : Nat
deriving DecidableEq, Repr

/-- JS truthiness of a possibly-undefined string field. -/
def jsTruthy : Option String → Bool
  | none => false
  | some s => s ≠ ""

/-- `FileUploader.abortUpload` (lines 123-160): the `abortCalled` test-and-set
guard runs with no intervening await, so it is one atomic step; the body issues
exactly one request to the abort endpoint, all of whose errors are swallowed. -/
def clientAbortUpload (st : UploaderState) : UploaderState :=
  if st.abortCalled then st
  else { st with abortCalled := true, abortRequests := st.abortRequests + 1 }

/-- `FileUploader.cancelWithCleanup` (lines 51-60). -/
def cancelWithCleanup (st : UploaderState) : UploaderState :=
  let st1 : UploaderState := { st with signalAborted := true }
  if jsTruthy st1.uploadId ∧ ¬ st1.abortCalled then clientAbortUpload st1 else st1

/-- The catch-block of `FileUploader.upload` (lines 282-292): abort only when
an uploadId is known, the failure is not the user-cancellation path, and abort
was not called before. -/
def uploadCatchCleanup (errMessage : String) (st : UploaderState) : UploaderState :=
  if jsTruthy st.uploadId ∧ errMessage ≠ "Upload cancelled by user" ∧ ¬ st.abortCalled then
    clientAbortUpload st
  else st

/-- Events of one upload attempt that can reach the abort path: the user
cancelling, or `upload()` unwinding into its catch block with some message
(concurrent parts observing the cancellation all unwind with
"Upload cancelled by user"). -/
inductive ClientEvent where
  | cancel
  | uploadFailure (msg : String)

def clientStep : ClientEvent → UploaderState → UploaderState
  | ClientEvent.cancel, st => cancelWithCleanup st
  | ClientEvent.uploadFailure m, st => uploadCatchCleanup m st

def clientRun (evs : List ClientEvent) (st : UploaderState) : UploaderState :=
  evs.foldl (fun s e => clientStep e s) st

/-! ### Client retry loop (`FileUploader.makeRequest`, lines 72-121) -/

inductive MkOutcome where
  | success (attempt : Nat)
  | failure
  | cancelled
deriving DecidableEq, Repr

structure MkResult where
  outcome : MkOutcome
  delays : List Nat
deriving DecidableEq, Repr

/-- Attempt loop: `attemptOk n` is whether the fetch of 0-based attempt `n`
succeeds, `abortedAt n` whether the cancellation signal is already set at the
top of attempt `n`; the first argument counts the loop iterations left
(`retries - attempt`).  A failed attempt is followed by a
`Math.pow(2, attempt) * 1000` ms delay only while `attempt < retries - 1`;
after the last failed attempt the stored error is rethrown. -/
def makeRequestGo (abortedAt attemptOk : Nat → Bool) (retries : Nat) :
    Nat → Nat → List Nat → MkResult
  | 0, _, delays => ⟨MkOutcome.failure, delays⟩
  | n + 1, attempt, delays =>
    if abortedAt attempt then ⟨MkOutcome.cancelled, delays⟩
    else if attemptOk attempt then ⟨MkOutcome.success attempt, delays⟩
    else if attempt < retries - 1 then
      makeRequestGo abortedAt attemptOk retries n (attempt + 1)
        (delays ++ [2 ^ attempt * 1000])
    else ⟨MkOutcome.failure, delays⟩

def makeRequest (abortedAt attemptOk : Nat → Bool) (retries : Nat) : MkResult :=
  makeRequestGo abortedAt attemptOk retries retries 0 []

/-! ## Chunk-addressing lemmas -/

/-- `numParts` is the exact ceiling of `size / partSize`: it is the unique `n`
with `(n-1)·partSize < size ≤ n·partSize` (for positive inputs). -/
theorem numParts_spec (size partSize : Nat) (hs : 0 < size) (hp : 0 < partSize) :
    size ≤ numParts size partSize * partSize ∧
    (numParts size partSize - 1) * partSize < size := by
  have h1 := Nat.div_add_mod (size + partSize - 1) partSize
  have h2 := Nat.mod_lt (size + partSize - 1) hp
  unfold numParts
  rcases Nat.eq_zero_or_pos ((size + partSize - 1) / partSize) with h0 | hq1
  · rw [h0] at h1 ⊢
    simp only [Nat.mul_zero, Nat.zero_add] at h1
    omega
  · obtain ⟨t, ht⟩ : ∃ t, (size + partSize - 1) / partSize = t + 1 :=
      ⟨(size + partSize - 1) / partSize - 1, by omega⟩
    rw [ht] at h1 ⊢
    have e1 : partSize * (t + 1) = partSize * t + partSize := by ring
    have e2 : (t + 1) * partSize = partSize * t + partSize := by ring
    have e3 : (t + 1 - 1) * partSize = partSize * t := by
      simp [Nat.add_sub_cancel, Nat.mul_comm]
    rw [e1] at h1
    rw [e2, e3]
    generalize partSize * t = P at h1 ⊢
    omega

theorem partLen_eq (size partSize i : Nat) :
    partLen size partSize i = min ((i + 1) * partSize) size - i * partSize := by
  simp [partLen, getPartStart, getPartEnd, Nat.add_sub_cancel, Nat.add_mul, Nat.one_mul]

theorem numParts_pos (size partSize : Nat) (hs : 0 < size) (hp : 0 < partSize) :
    0 < numParts size partSize := by
  have h1 := (numParts_spec size partSize hs hp).1
  rcases Nat.eq_zero_or_pos (numParts size partSize) with h0 | h
  · rw [h0] at h1; simp at h1; omega
  · exact h

theorem partLen_of_not_last (size partSize i : Nat) (hs : 0 < size) (hp : 0 < partSize)
    (hi : i + 1 < numParts size partSize) :
    partLen size partSize i = partSize := by
  have h := (numParts_spec size partSize hs hp).2
  rw [partLen_eq]
  have hle : (i + 1) * partSize ≤ (numParts size partSize - 1) * partSize :=
    Nat.mul_le_mul_right _ (by omega)
  have hlt : (i + 1) * partSize < size := lt_of_le_of_lt hle h
  rw [Nat.min_eq_left (le_of_lt hlt)]
  have e : (i + 1) * partSize = i * partSize + partSize := by ring
  rw [e, Nat.add_sub_cancel_left]

theorem partLen_last (size partSize : Nat) (hs : 0 < size) (hp : 0 < partSize) :
    partLen size partSize (numParts size partSize - 1) =
      size - (numParts size partSize - 1) * partSize := by
  obtain ⟨h1, _⟩ := numParts_spec size partSize hs hp
  have hpos := numParts_pos size partSize hs hp
  rw [partLen_eq]
  have e : numParts size partSize - 1 + 1 = numParts size partSize := by omega
  rw [e, Nat.min_eq_right h1]

theorem sum_partLen_aux (size partSize n : Nat) :
    (∑ i ∈ Finset.range n, partLen size partSize i) = min (n * partSize) size := by
  induction n with
  | zero => simp
  | succ k ih =>
    rw [Finset.sum_range_succ, ih, partLen_eq]
    have e : (k + 1) * partSize = k * partSize + partSize := by ring
    rw [e]
    generalize k * partSize = A
    omega

theorem sum_partLen (size partSize : Nat) (hs : 0 < size) (hp : 0 < partSize) :
    (∑ i ∈ Finset.range (numParts size partSize), partLen size partSize i) = size := by
  rw [sum_partLen_aux]
  exact Nat.min_eq_right (numParts_spec size partSize hs hp).1

theorem serverChunkSize_eq_partLen (size partSize i : Nat) (hs : 0 < size)
    (hp : 0 < partSize) (hi : i < numParts size partSize) :
    serverChunkSize size partSize i = (partLen size partSize i : Int) := by
  unfold serverChunkSize
  by_cases h : i = numParts size partSize - 1
  · subst h
    rw [if_pos rfl, partLen_last size partSize hs hp,
      Nat.cast_sub (le_of_lt (numParts_spec size partSize hs hp).2), Nat.cast_mul]
  · rw [if_neg h, partLen_of_not_last size partSize i hs hp (by omega)]

/-- C2: for every size > 0 and partSize > 0, the part count is the exact
ceiling of size/partSize; the client part `i` (zero-based, passed to `getPart`
as `i+1`) covers `[i·partSize, min((i+1)·partSize, size))`; every part but the
last has length `partSize` and the last has length `size − (count−1)·partSize`;
the part lengths sum to `size`; and the per-chunk sizes the server computes at
initiate agree with the client partition on every index. -/
theorem partition_correct (size partSize : Nat) (hs : 0 < size) (hp : 0 < partSize) :
    (size ≤ numParts size partSize * partSize ∧
      (numParts size partSize - 1) * partSize < size) ∧
    (∀ i : Nat, getPartStart partSize (i + 1) = i * partSize ∧
      getPartEnd size partSize (i + 1) = min ((i + 1) * partSize) size) ∧
    (∀ i : Nat, i + 1 < numParts size partSize → partLen size partSize i = partSize) ∧
    partLen size partSize (numParts size partSize - 1) =
      size - (numParts size partSize - 1) * partSize ∧
    (∑ i ∈ Finset.range (numParts size partSize), partLen size partSize i) = size ∧
    (∀ i : Nat, i < numParts size partSize →
      serverChunkSize size partSize i = (partLen size partSize i : Int)) := by
  refine ⟨numParts_spec size partSize hs hp, ?_, ?_, ?_, ?_, ?_⟩
  · intro i
    constructor
    · simp [getPartStart]
    · simp [getPartEnd, getPartStart, Nat.add_mul, Nat.one_mul]
  · intro i hi
    exact partLen_of_not_last size partSize i hs hp hi
  · exact partLen_last size partSize hs hp
  · exact sum_partLen size partSize hs hp
  · intro i hi
    exact serverChunkSize_eq_partLen size partSize i hs hp hi

/-- Witness for C2 at `size = 12`, `partSize = 5` (three parts of lengths
5, 5, 2). -/
theorem partition_correct_witness :
    ((∑ i ∈ Finset.range (numParts 12 5), partLen 12 5 i) = 12) ∧
    partLen 12 5 (numParts 12 5 - 1) = 12 - (numParts 12 5 - 1) * 5 :=
  ⟨(partition_correct 12 5 (by decide) (by decide)).2.2.2.2.1,
    (partition_correct 12 5 (by decide) (by decide)).2.2.2.1⟩

/-! ## Chunk-table lemmas -/

theorem completeChunkFun_fileId (fid : String) (idx : Nat) (etag : String) (c : ChunkRow) :
    (completeChunkFun fid idx etag c).fileId = c.fileId := by
  unfold completeChunkFun
  split <;> rfl

theorem completeChunkFun_chunkIndex (fid : String) (idx : Nat) (etag : String) (c : ChunkRow) :
    (completeChunkFun fid idx etag c).chunkIndex = c.chunkIndex := by
  unfold completeChunkFun
  split <;> rfl

theorem findChunk_map_complete (fid : String) (idx : Nat) (etag : String)
    (cs : List ChunkRow) :
    findChunk fid idx (cs.map (completeChunkFun fid idx etag)) =
      (findChunk fid idx cs).map (completeChunkFun fid idx etag) := by
  unfold findChunk
  rw [List.find?_map]
  have hpred : ((fun r : ChunkRow => r.fileId == fid && r.chunkIndex == idx) ∘
      completeChunkFun fid idx etag) =
      (fun r : ChunkRow => r.fileId == fid && r.chunkIndex == idx) := by
    funext r
    simp only [Function.comp_apply, completeChunkFun_fileId, completeChunkFun_chunkIndex]
  rw [hpred]

theorem countP_map_complete (fid : String) (idx : Nat) (etag : String)
    (cs : List ChunkRow) :
    (cs.map (completeChunkFun fid idx etag)).countP
        (fun r => r.fileId == fid && r.chunkIndex == idx) =
      cs.countP (fun r => r.fileId == fid && r.chunkIndex == idx) := by
  rw [List.countP_map]
  have hpred : ((fun r : ChunkRow => r.fileId == fid && r.chunkIndex == idx) ∘
      completeChunkFun fid idx etag) =
      (fun r : ChunkRow => r.fileId == fid && r.chunkIndex == idx) := by
    funext r
    simp only [Function.comp_apply, completeChunkFun_fileId, completeChunkFun_chunkIndex]
  rw [hpred]

theorem completeChunkFun_comp (fid : String) (idx : Nat) (etag etag2 : String)
    (c : ChunkRow) :
    completeChunkFun fid idx etag2 (completeChunkFun fid idx etag c) =
      completeChunkFun fid idx etag2 c := by
  by_cases h : (c.fileId == fid && c.chunkIndex == idx) = true
  · simp [completeChunkFun, h]
  · simp [completeChunkFun, h]

theorem updateChunk_eq_of_find (fid : String) (idx : Nat) (etag : String)
    (cs : List ChunkRow) (c : ChunkRow) (h : findChunk fid idx cs = some c) :
    updateChunk fid idx etag cs = some (cs.map (completeChunkFun fid idx etag)) := by
  simp [updateChunk, h]

theorem recordChunkUpload_eq (fid : String) (idx : Nat) (etag : String) (st : SysState)
    (c : ChunkRow) (hfid : fid ≠ "") (he : etag ≠ "")
    (h : findChunk fid idx st.chunks = some c) :
    recordChunkUpload fid (some idx) etag st =
      (200, { st with chunks := st.chunks.map (completeChunkFun fid idx etag) }) := by
  simp [recordChunkUpload, hfid, he, updateChunk_eq_of_find fid idx etag st.chunks c h]

/-- C4: recordChunk is idempotent and last-write-wins.  With one chunk row at
`(fid, idx)`, recording `etag` twice succeeds both times, the second call does
not change the state, exactly one row remains at the key and it carries `etag`
with status `COMPLETED`; recording a different `etag2` afterwards succeeds and
overwrites the checksum rather than erroring. -/
theorem recordChunk_idem (st : SysState) (fid : String) (idx : Nat) (etag etag2 : String)
    (hfid : fid ≠ "") (he : etag ≠ "") (he2 : etag2 ≠ "")
    (c : ChunkRow) (hfind : findChunk fid idx st.chunks = some c)
    (hone : st.chunks.countP (fun r => r.fileId == fid && r.chunkIndex == idx) = 1) :
    (recordChunkUpload fid (some idx) etag st).1 = 200 ∧
    (recordChunkUpload fid (some idx) etag
        (recordChunkUpload fid (some idx) etag st).2).1 = 200 ∧
    (recordChunkUpload fid (some idx) etag
        (recordChunkUpload fid (some idx) etag st).2).2 =
      (recordChunkUpload fid (some idx) etag st).2 ∧
    ((recordChunkUpload fid (some idx) etag
        (recordChunkUpload fid (some idx) etag st).2).2.chunks.countP
      (fun r => r.fileId == fid && r.chunkIndex == idx)) = 1 ∧
    findChunk fid idx (recordChunkUpload fid (some idx) etag
        (recordChunkUpload fid (some idx) etag st).2).2.chunks =
      some { c with checksum := some etag, status := ChunkStatus.COMPLETED } ∧
    (recordChunkUpload fid (some idx) etag2
        (recordChunkUpload fid (some idx) etag st).2).1 = 200 ∧
    findChunk fid idx (recordChunkUpload fid (some idx) etag2
        (recordChunkUpload fid (some idx) etag st).2).2.chunks =
      some { c with checksum := some etag2, status := ChunkStatus.COMPLETED } := by
  have hfind0 : st.chunks.find? (fun r => r.fileId == fid && r.chunkIndex == idx) =
      some c := hfind
  have hkey : (c.fileId == fid && c.chunkIndex == idx) = true :=
    List.find?_some (p := fun r : ChunkRow => r.fileId == fid && r.chunkIndex == idx) hfind0
  have h1 := recordChunkUpload_eq fid idx etag st c hfid he hfind
  have hfind1 : findChunk fid idx (st.chunks.map (completeChunkFun fid idx etag)) =
      some (completeChunkFun fid idx etag c) := by
    rw [findChunk_map_complete, hfind]
    rfl
  have hmm : ∀ e2 : String,
      (st.chunks.map (completeChunkFun fid idx etag)).map (completeChunkFun fid idx e2) =
        st.chunks.map (completeChunkFun fid idx e2) := by
    intro e2
    rw [List.map_map]
    congr 1
    funext r
    exact completeChunkFun_comp fid idx etag e2 r
  have h2 := recordChunkUpload_eq fid idx etag
    { st with chunks := st.chunks.map (completeChunkFun fid idx etag) }
    (completeChunkFun fid idx etag c) hfid he hfind1
  have h3 := recordChunkUpload_eq fid idx etag2
    { st with chunks := st.chunks.map (completeChunkFun fid idx etag) }
    (completeChunkFun fid idx etag c) hfid he2 hfind1
  have hfc : ∀ e2 : String, completeChunkFun fid idx e2 c =
      { c with checksum := some e2, status := ChunkStatus.COMPLETED } := by
    intro e2
    unfold completeChunkFun
    rw [if_pos hkey]
  rw [h1]
  refine ⟨rfl, ?_, ?_, ?_, ?_, ?_, ?_⟩
  · rw [h2]
  · rw [h2]
    simp only [hmm]
  · rw [h2]
    simp only [hmm etag]
    rw [countP_map_complete, hone]
  · rw [h2]
    simp only [hmm etag]
    rw [findChunk_map_complete, hfind]
    simp only [Option.map_some', hfc]
  · rw [h3]
  · rw [h3]
    simp only [hmm etag2]
    rw [findChunk_map_complete, hfind]
    simp only [Option.map_some', hfc]

/-- Witness for C4 on a one-row chunk table. -/
theorem recordChunk_idem_witness :
    (recordChunkUpload "f" (some 0) "e1"
      ⟨[], [⟨"f", 0, 5, "k", none, ChunkStatus.PENDING⟩], [], []⟩).1 = 200 ∧
    findChunk "f" 0 (recordChunkUpload "f" (some 0) "e2"
        (recordChunkUpload "f" (some 0) "e1"
          ⟨[], [⟨"f", 0, 5, "k", none, ChunkStatus.PENDING⟩], [], []⟩).2).2.chunks =
      some ⟨"f", 0, 5, "k", some "e2", ChunkStatus.COMPLETED⟩ := by
  have h := recordChunk_idem ⟨[], [⟨"f", 0, 5, "k", none, ChunkStatus.PENDING⟩], [], []⟩
    "f" 0 "e1" "e2" (by decide) (by decide) (by decide)
    ⟨"f", 0, 5, "k", none, ChunkStatus.PENDING⟩ (by rfl) (by rfl)
  exact ⟨h.1, h.2.2.2.2.2.2⟩

/-- C5 corrected: recordChunk on an unknown `(fileId, chunkIndex)` does not
produce a 404; the P2025 rejection falls into the generic catch and the
endpoint answers 500 "Internal error", leaving the state unchanged. -/
theorem recordChunk_unknown_internal_error (st : SysState) (fid : String) (idx : Nat)
    (etag : String) (hfid : fid ≠ "") (he : etag ≠ "")
    (hnone : findChunk fid idx st.chunks = none) :
    recordChunkUpload fid (some idx) etag st = (500, st) := by
  simp [recordChunkUpload, hfid, he, updateChunk, hnone]

/-- Counterexample to C5 as stated: on an empty chunk table the endpoint
answers 500, not the claimed strict 404. -/
theorem recordChunk_unknown_counterexample :
    (recordChunkUpload "f" (some 0) "e" ⟨[], [], [], []⟩).1 = 500 ∧
    ¬ (recordChunkUpload "f" (some 0) "e" ⟨[], [], [], []⟩).1 = 404 := by
  exact ⟨rfl, by decide⟩

/-- Witness for the corrected C5 on a table holding only an unrelated row. -/
theorem recordChunk_unknown_witness :
    recordChunkUpload "g" (some 7) "e"
        ⟨[], [⟨"f", 0, 5, "k", none, ChunkStatus.PENDING⟩], [], []⟩ =
      (500, ⟨[], [⟨"f", 0, 5, "k", none, ChunkStatus.PENDING⟩], [], []⟩) :=
  recordChunk_unknown_internal_error
    ⟨[], [⟨"f", 0, 5, "k", none, ChunkStatus.PENDING⟩], [], []⟩ "g" 7 "e"
    (by decide) (by decide) (by rfl)

/-! ## FileMetadata status invariants -/

/-- Every row keyed by `fid` (by the `metadata_pkey` primary key there is at
most one) has status `UPLOADED`. -/
def allUploadedFor (fid : String) (fs : List FileMeta) : Prop :=
  ∀ m ∈ fs, m.fileId = fid → m.status = FileStatus.UPLOADED

theorem allUploadedFor_filter (fid : String) (fs : List FileMeta) (p : FileMeta → Bool)
    (h : allUploadedFor fid fs) : allUploadedFor fid (fs.filter p) := by
  intro m hm
  exact h m (List.mem_of_mem_filter hm)

theorem allUploadedFor_append_single (fid : String) (fs : List FileMeta)
    (meta : FileMeta) (h : allUploadedFor fid fs) (hne : meta.fileId ≠ fid) :
    allUploadedFor fid (fs ++ [meta]) := by
  intro m hm hfid
  rcases List.mem_append.mp hm with h1 | h1
  · exact h m h1 hfid
  · rw [List.mem_singleton] at h1
    subst h1
    exact absurd hfid hne

theorem allUploadedFor_map (fid : String) (fs : List FileMeta) (f : FileMeta → FileMeta)
    (hid : ∀ m, (f m).fileId = m.fileId)
    (hst : ∀ m, (f m).status = m.status ∨ (f m).status = FileStatus.UPLOADED)
    (h : allUploadedFor fid fs) : allUploadedFor fid (fs.map f) := by
  intro m hm hfid
  obtain ⟨a, ha, rfl⟩ := List.mem_map.mp hm
  rcases hst a with h1 | h1
  · rw [h1]
    exact h a ha (by rw [← hid a]; exact hfid)
  · exact h1

theorem setStatusFun_fileId (fid : String) (s : FileStatus) (m : FileMeta) :
    (setStatusFun fid s m).fileId = m.fileId := by
  unfold setStatusFun
  split <;> rfl

theorem setStatusFun_status (fid : String) (s : FileStatus) (m : FileMeta) :
    (setStatusFun fid s m).status = m.status ∨ (setStatusFun fid s m).status = s := by
  unfold setStatusFun
  split
  · exact Or.inr rfl
  · exact Or.inl rfl

theorem uploadedByKeyFun_fileId (key : String) (evSize : Option Int) (m : FileMeta) :
    (uploadedByKeyFun key evSize m).fileId = m.fileId := by
  unfold uploadedByKeyFun
  split <;> rfl

theorem uploadedByKeyFun_status (key : String) (evSize : Option Int) (m : FileMeta) :
    (uploadedByKeyFun key evSize m).status = m.status ∨
      (uploadedByKeyFun key evSize m).status = FileStatus.UPLOADED := by
  unfold uploadedByKeyFun
  split
  · exact Or.inr rfl
  · exact Or.inl rfl

/-- One coordinator or reconciler operation never downgrades an `UPLOADED` row:
if every `fid`-row is `UPLOADED` beforehand and the operation is not an
`initiate` recycling `fid` as its caller-generated id, every `fid`-row is
still `UPLOADED` afterwards. -/
theorem allUploadedFor_applyOp (fid : String) (op : Op) (st : SysState)
    (hK : allUploadedFor fid st.files)
    (hinit : ∀ env req, op = Op.opInitiate env req → req.file_id ≠ fid) :
    allUploadedFor fid (applyOp op st).files := by
  cases op with
  | opInitiate env req =>
    have hne : req.file_id ≠ fid := hinit env req rfl
    simp only [applyOp, initiate]
    repeat' split
    all_goals
      first
        | exact hK
        | exact allUploadedFor_append_single fid st.files _ hK hne
  | opRecordChunk f i e =>
    simp only [applyOp, recordChunkUpload]
    repeat' split
    all_goals exact hK
  | opComplete ok u p f =>
    simp only [applyOp, completeUpload]
    repeat' split
    all_goals try exact hK
    rename_i fs heq
    have heq2 : updateFileStatus f FileStatus.UPLOADED st.files = some fs := heq
    unfold updateFileStatus at heq2
    split at heq2
    · rw [Option.some.injEq] at heq2
      subst heq2
      exact allUploadedFor_map fid st.files _ (setStatusFun_fileId f FileStatus.UPLOADED)
        (setStatusFun_status f FileStatus.UPLOADED) hK
    · exact Option.noConfusion heq2
  | opAbort u f =>
    simp only [applyOp, abortUpload]
    repeat' split
    all_goals try exact hK
    all_goals
      rename_i s heq
      have heq2 : deleteFileCascade f { st with redis := rdDel ("upload:" ++ u) st.redis } =
        some s := heq
      unfold deleteFileCascade at heq2
      split at heq2
      · rw [Option.some.injEq] at heq2
        subst heq2
        exact allUploadedFor_filter fid st.files _ hK
      · exact Option.noConfusion heq2
  | opReconcile r =>
    simp only [applyOp, processS3Record]
    repeat' split
    all_goals try exact hK
    rename_i fs heq
    unfold updateFileUploadedByKey at heq
    split at heq
    · rw [Option.some.injEq] at heq
      subst heq
      exact allUploadedFor_map fid st.files _
        (fun m0 => uploadedByKeyFun_fileId _ _ m0)
        (fun m0 => uploadedByKeyFun_status _ _ m0) hK
    · exact Option.noConfusion heq

theorem allUploadedFor_applyOps (fid : String) (ops : List Op) (st : SysState)
    (hK : allUploadedFor fid st.files)
    (hinit : ∀ op ∈ ops, ∀ env req, op = Op.opInitiate env req → req.file_id ≠ fid) :
    allUploadedFor fid (applyOps ops st).files := by
  induction ops generalizing st with
  | nil => exact hK
  | cons op rest ih =>
    have hstep := allUploadedFor_applyOp fid op st hK
      (fun env req h => hinit op (List.mem_cons_self op rest) env req h)
    exact ih (applyOp op st) hstep
      (fun op2 h2 env req h => hinit op2 (List.mem_cons_of_mem op h2) env req h)

/-- Reconciler processing never throws: a record with no key or an unmatched
object key is skipped, and when the row is found the update succeeds. -/
theorem processS3Record_ok (r : S3Record) (st : SysState) :
    (processS3Record r st).1 = true := by
  simp only [processS3Record]
  repeat' split
  all_goals try rfl
  rename_i m hfnd x heq
  exact absurd heq (by simp [updateFileUploadedByKey, hfnd])

/-- C1: once a FileMetadata row is `UPLOADED` its status is terminal.  For any
sequence of coordinator/reconciler operations (none of which recycles the
file's caller-generated unique id in a fresh `initiate`), the `fid` row — if
still present — remains `UPLOADED`: no operation, in particular no duplicate
reconciler event carrying the same object key, moves it back to `UPLOADING` or
downgrades it to `FAILED`.  Moreover processing any reconciler event (a
duplicate for this object key included) raises no error. -/
theorem uploaded_terminal (ops : List Op) (st : SysState) (fid : String) (m : FileMeta)
    (hnd : (st.files.map FileMeta.fileId).Nodup)
    (hfind : findFile fid st.files = some m)
    (hst : m.status = FileStatus.UPLOADED)
    (hinit : ∀ op ∈ ops, ∀ env req, op = Op.opInitiate env req → req.file_id ≠ fid) :
    (∀ m2, findFile fid (applyOps ops st).files = some m2 →
      m2.status = FileStatus.UPLOADED) ∧
    (∀ r : S3Record, (processS3Record r st).1 = true) := by
  have hfind0 : st.files.find? (fun x => x.fileId == fid) = some m := hfind
  have hmem : m ∈ st.files := List.mem_of_find?_eq_some hfind0
  have hmid : m.fileId = fid := by
    have h := List.find?_some (p := fun x : FileMeta => x.fileId == fid) hfind0
    simpa using h
  have hK : allUploadedFor fid st.files := by
    intro x hx hxid
    have hx0 : x = m := List.inj_on_of_nodup_map hnd hx hmem (by rw [hxid, hmid])
    rw [hx0]
    exact hst
  refine ⟨?_, fun r => processS3Record_ok r st⟩
  intro m2 hfind2
  have hall := allUploadedFor_applyOps fid ops st hK hinit
  have hfind20 : (applyOps ops st).files.find? (fun x => x.fileId == fid) = some m2 :=
    hfind2
  have hmid2 : m2.fileId = fid := by
    have h := List.find?_some (p := fun x : FileMeta => x.fileId == fid) hfind20
    simpa using h
  exact hall m2 (List.mem_of_find?_eq_some hfind20) hmid2

/-- Witness for C1: an `UPLOADED` row survives a duplicate reconciler event for
its object key followed by a stray recordChunk, and the duplicate event
processes without error. -/
theorem uploaded_terminal_witness :
    findFile "f" (applyOps
        [Op.opReconcile ⟨some "key1", some 7⟩, Op.opRecordChunk "f" (some 0) "e"]
        ⟨[⟨"f", "n", "t", some 5, "key1", FileStatus.UPLOADED, "u"⟩], [], [], []⟩).files =
      some ⟨"f", "n", "t", some 7, "key1", FileStatus.UPLOADED, "u"⟩ ∧
    FileMeta.status ⟨"f", "n", "t", some 7, "key1", FileStatus.UPLOADED, "u"⟩ =
      FileStatus.UPLOADED ∧
    (processS3Record ⟨some "key1", some 7⟩
      ⟨[⟨"f", "n", "t", some 5, "key1", FileStatus.UPLOADED, "u"⟩], [], [], []⟩).1 = true := by
  have h := uploaded_terminal
    [Op.opReconcile ⟨some "key1", some 7⟩, Op.opRecordChunk "f" (some 0) "e"]
    ⟨[⟨"f", "n", "t", some 5, "key1", FileStatus.UPLOADED, "u"⟩], [], [], []⟩
    "f" ⟨"f", "n", "t", some 5, "key1", FileStatus.UPLOADED, "u"⟩
    (by decide) (by decide) rfl
    (by
      intro op hop env req heq
      simp only [List.mem_cons, List.mem_singleton] at hop
      rcases hop with rfl | rfl | h0
      · exact Op.noConfusion heq
      · exact Op.noConfusion heq
      · exact absurd h0 (List.not_mem_nil op))
  exact ⟨by decide, h.1 ⟨"f", "n", "t", some 7, "key1", FileStatus.UPLOADED, "u"⟩
    (by decide), h.2 ⟨some "key1", some 7⟩⟩

/-! ## Initiate lemmas -/

theorem find_append_meta (fid : String) (fs : List FileMeta) (meta : FileMeta)
    (hmeta : findFile fid fs = none) (hid : meta.fileId = fid) :
    findFile fid (fs ++ [meta]) = some meta := by
  unfold findFile at hmeta ⊢
  rw [List.find?_append, hmeta, Option.none_or]
  simp [List.find?, hid]

theorem filter_append_of_all (fid : String) (cs ns : List ChunkRow)
    (hch : cs.filter (fun c => c.fileId == fid) = [])
    (hall : ∀ c ∈ ns, c.fileId = fid) :
    (cs ++ ns).filter (fun c => c.fileId == fid) = ns := by
  rw [List.filter_append, hch, List.nil_append]
  apply List.filter_eq_self.mpr
  intro c hc
  simp [hall c hc]

/-- C3: the durable writes of initiate are transactional.  With no prior row
for the (caller-generated, fresh) `file_id`: when initiate answers 200 the
FileMetadata row exists with status `UPLOADING` and there are exactly
`numParts` chunk rows for the file, all `PENDING`; when initiate fails (any
non-200 answer, in particular the 500 `INIT_FAILED` paths) no FileMetadata row
and no Chunk rows for that `file_id` are visible. -/
theorem initiate_atomic (env : InitEnv) (req : InitiateReq) (st : SysState)
    (hmeta : findFile req.file_id st.files = none)
    (hch : st.chunks.filter (fun c => c.fileId == req.file_id) = []) :
    ((initiate env req st).1 = 200 →
      (∃ m, findFile req.file_id (initiate env req st).2.files = some m ∧
        m.status = FileStatus.UPLOADING) ∧
      ((initiate env req st).2.chunks.filter
          (fun c => c.fileId == req.file_id)).length =
        numParts req.file_size.toNat CHUNK_SIZE ∧
      (∀ c ∈ (initiate env req st).2.chunks.filter (fun c => c.fileId == req.file_id),
        c.status = ChunkStatus.PENDING)) ∧
    ((initiate env req st).1 ≠ 200 →
      findFile req.file_id (initiate env req st).2.files = none ∧
      (initiate env req st).2.chunks.filter (fun c => c.fileId == req.file_id) = []) := by
  simp only [initiate]
  repeat' split
  all_goals try exact ⟨fun h => absurd h (by simp), fun _ => ⟨hmeta, hch⟩⟩
  rename_i hnest
  have hfl : (st.chunks ++ (List.range (numParts req.file_size.toNat CHUNK_SIZE)).map
        (fun i => (⟨req.file_id, i,
          serverChunkSize req.file_size.toNat CHUNK_SIZE i,
          "dropbox/" ++ req.user_id ++ "/" ++ toString env.nowMs ++ "-" ++ req.file_name,
          none, ChunkStatus.PENDING⟩ : ChunkRow))).filter
        (fun c => c.fileId == req.file_id) =
      (List.range (numParts req.file_size.toNat CHUNK_SIZE)).map
        (fun i => (⟨req.file_id, i,
          serverChunkSize req.file_size.toNat CHUNK_SIZE i,
          "dropbox/" ++ req.user_id ++ "/" ++ toString env.nowMs ++ "-" ++ req.file_name,
          none, ChunkStatus.PENDING⟩ : ChunkRow)) := by
    apply filter_append_of_all req.file_id st.chunks _ hch
    intro c hc
    obtain ⟨i, _, rfl⟩ := List.mem_map.mp hc
    rfl
  refine ⟨fun _ => ⟨⟨⟨req.file_id, req.file_name, req.file_type, some req.file_size,
      "dropbox/" ++ req.user_id ++ "/" ++ toString env.nowMs ++ "-" ++ req.file_name,
      FileStatus.UPLOADING, req.user_id⟩, ?_, rfl⟩, ?_, ?_⟩, fun h => absurd rfl h⟩
  · exact find_append_meta req.file_id st.files _ hmeta rfl
  · show ((st.chunks ++ _).filter _).length = _
    rw [hfl, List.length_map, List.length_range]
  · show ∀ c ∈ (st.chunks ++ _).filter _, _
    rw [hfl]
    intro c hc
    obtain ⟨i, _, rfl⟩ := List.mem_map.mp hc
    rfl

/-- Witness for C3: a fresh 7-byte initiate succeeds and leaves an `UPLOADING`
row, while an initiate whose durable transaction fails leaves no row. -/
theorem initiate_atomic_witness :
    (∃ m, findFile "f" (initiate ⟨some "U", true, true, 0⟩ ⟨"f", "n", "t", 7, "u"⟩
        ⟨[], [], [], []⟩).2.files = some m ∧ m.status = FileStatus.UPLOADING) ∧
    findFile "f" (initiate ⟨some "U", true, false, 0⟩ ⟨"f", "n", "t", 7, "u"⟩
        ⟨[], [], [], []⟩).2.files = none ∧
    (initiate ⟨some "U", true, false, 0⟩ ⟨"f", "n", "t", 7, "u"⟩
        ⟨[], [], [], []⟩).2.chunks.filter (fun c => c.fileId == "f") = [] := by
  have hok := (initiate_atomic ⟨some "U", true, true, 0⟩ ⟨"f", "n", "t", 7, "u"⟩
    ⟨[], [], [], []⟩ rfl rfl).1 (by decide)
  have hfail := (initiate_atomic ⟨some "U", true, false, 0⟩ ⟨"f", "n", "t", 7, "u"⟩
    ⟨[], [], [], []⟩ rfl rfl).2 (by decide)
  exact ⟨hok.1, hfail.1, hfail.2⟩

/-! ## Session-store lemmas -/

theorem rdGet_rdSet_self (k : String) (v : SessionVal)
    (r : List (String × SessionVal)) : rdGet k (rdSet k v r) = some v := by
  simp [rdGet, rdSet]

theorem rdGet_rdDel_self (k : String) (r : List (String × SessionVal)) :
    rdGet k (rdDel k r) = none := by
  unfold rdGet rdDel
  have h : (r.filter fun p => !(p.1 == k)).find? (fun p => p.1 == k) = none := by
    rw [List.find?_eq_none]
    intro x hx
    have h2 := List.of_mem_filter hx
    simpa using h2
  rw [h]
  rfl

/-- C10: initiate writes the Session entry before opening the durable
transaction, and a transaction failure is not compensated.  With valid inputs,
a successful multipart-open/presign and a failing durable transaction,
initiate answers 500 while the Session entry for the uploadId is live in
Redis, the opened multipart upload is still open (never aborted), and the
durable tables are untouched. -/
theorem initiate_session_leak (env : InitEnv) (req : InitiateReq) (st : SysState)
    (uploadId : String)
    (henv : env.s3UploadId = some uploadId) (hpre : env.presignOk = true)
    (htxn : env.txnOk = false)
    (h1 : req.file_id ≠ "") (h2 : req.file_name ≠ "") (h3 : req.file_type ≠ "")
    (h4 : req.user_id ≠ "") (h5 : 0 < req.file_size)
    (h6 : req.file_size ≤ (MAX_FILE_SIZE : Int)) :
    (initiate env req st).1 = 500 ∧
    rdGet ("upload:" ++ uploadId) (initiate env req st).2.redis =
      some ⟨awsBucket,
        "dropbox/" ++ req.user_id ++ "/" ++ toString env.nowMs ++ "-" ++ req.file_name⟩ ∧
    uploadId ∈ (initiate env req st).2.openUploads ∧
    (initiate env req st).2.files = st.files ∧
    (initiate env req st).2.chunks = st.chunks := by
  have e : initiate env req st = (500,
      { st with
        openUploads := uploadId :: st.openUploads
        redis := rdSet ("upload:" ++ uploadId)
          ⟨awsBucket, "dropbox/" ++ req.user_id ++ "/" ++ toString env.nowMs ++ "-" ++
            req.file_name⟩ st.redis }) := by
    simp only [initiate, henv]
    rw [if_neg (by push_neg; exact ⟨h1, h2, h3, by omega, h4⟩)]
    rw [if_neg (by omega)]
    rw [if_neg (by omega)]
    rw [if_neg (by simp [hpre])]
    rw [if_pos (by simp [htxn])]
  rw [e]
  exact ⟨rfl, rdGet_rdSet_self _ _ _, List.mem_cons_self _ _, rfl, rfl⟩

/-- Witness for C10 with a concrete request and empty initial state. -/
theorem initiate_session_leak_witness :
    (initiate ⟨some "U", true, false, 3⟩ ⟨"f", "n", "t", 7, "u"⟩ ⟨[], [], [], []⟩).1 =
      500 ∧
    rdGet "upload:U" (initiate ⟨some "U", true, false, 3⟩ ⟨"f", "n", "t", 7, "u"⟩
        ⟨[], [], [], []⟩).2.redis = some ⟨awsBucket, "dropbox/u/3-n"⟩ ∧
    "U" ∈ (initiate ⟨some "U", true, false, 3⟩ ⟨"f", "n", "t", 7, "u"⟩
        ⟨[], [], [], []⟩).2.openUploads := by
  have h := initiate_session_leak ⟨some "U", true, false, 3⟩ ⟨"f", "n", "t", 7, "u"⟩
    ⟨[], [], [], []⟩ "U" rfl rfl rfl (by decide) (by decide) (by decide) (by decide)
    (by decide) (by decide)
  exact ⟨h.1, h.2.1, h.2.2.1⟩

/-! ## Abort lemmas -/

theorem findFile_filter_self (fid : String) (fs : List FileMeta) :
    findFile fid (fs.filter fun m => !(m.fileId == fid)) = none := by
  unfold findFile
  rw [List.find?_eq_none]
  intro x hx
  have h := List.of_mem_filter hx
  simpa using h

theorem chunks_filter_self (fid : String) (cs : List ChunkRow) :
    (cs.filter fun c => !(c.fileId == fid)).filter (fun c => c.fileId == fid) = [] := by
  rw [List.filter_filter]
  simp

/-- Counterexample to C6 as stated: with a live Session entry for uploadId "U"
but no FileMetadata row for "F", abort answers success yet leaves the Session
entry untouched — the early return on missing metadata skips the Redis
delete. -/
theorem abort_session_retained_counterexample :
    (abortUpload "U" "F" ⟨[], [], [("upload:U", ⟨"b", "k"⟩)], ["U"]⟩).1 = 200 ∧
    rdGet "upload:U"
        (abortUpload "U" "F" ⟨[], [], [("upload:U", ⟨"b", "k"⟩)], ["U"]⟩).2.redis =
      some ⟨"b", "k"⟩ := by
  exact ⟨rfl, rfl⟩

/-- C6 amended: abort deletes the Session entry only on the path where the
FileMetadata row still exists (when the row is already absent it returns
success immediately without touching the session).  Starting from a state
where the row exists, abort succeeds and leaves no FileMetadata row, no Chunk
rows and no Session entry, and a second abort also succeeds while changing
nothing. -/
theorem abort_idempotent_cleanup (st : SysState) (uploadId fid : String)
    (hu : uploadId ≠ "") (hf : fid ≠ "")
    (m : FileMeta) (hfind : findFile fid st.files = some m) :
    (abortUpload uploadId fid st).1 = 200 ∧
    findFile fid (abortUpload uploadId fid st).2.files = none ∧
    (abortUpload uploadId fid st).2.chunks.filter (fun c => c.fileId == fid) = [] ∧
    rdGet ("upload:" ++ uploadId) (abortUpload uploadId fid st).2.redis = none ∧
    abortUpload uploadId fid (abortUpload uploadId fid st).2 =
      (200, (abortUpload uploadId fid st).2) := by
  have hdel : deleteFileCascade fid
      { st with redis := rdDel ("upload:" ++ uploadId) st.redis } =
      some { st with
        redis := rdDel ("upload:" ++ uploadId) st.redis
        files := st.files.filter (fun m0 => !(m0.fileId == fid))
        chunks := st.chunks.filter (fun c => !(c.fileId == fid)) } := by
    have hsome : (findFile fid st.files).isSome = true := by
      rw [hfind]
      rfl
    unfold deleteFileCascade
    rw [if_pos hsome]
  have e1 : abortUpload uploadId fid st = (200,
      if m.s3Key ≠ "" then
        { st with
          redis := rdDel ("upload:" ++ uploadId) st.redis
          files := st.files.filter (fun m0 => !(m0.fileId == fid))
          chunks := st.chunks.filter (fun c => !(c.fileId == fid))
          openUploads := st.openUploads.erase uploadId }
      else
        { st with
          redis := rdDel ("upload:" ++ uploadId) st.redis
          files := st.files.filter (fun m0 => !(m0.fileId == fid))
          chunks := st.chunks.filter (fun c => !(c.fileId == fid)) }) := by
    simp only [abortUpload, hfind, hdel]
    rw [if_neg (by push_neg; exact ⟨hu, hf⟩)]
  by_cases hs : m.s3Key ≠ ""
  · rw [e1, if_pos hs]
    refine ⟨rfl, findFile_filter_self fid st.files, chunks_filter_self fid st.chunks,
      rdGet_rdDel_self _ _, ?_⟩
    simp only [abortUpload, findFile_filter_self fid st.files]
    rw [if_neg (by push_neg; exact ⟨hu, hf⟩)]
  · rw [e1, if_neg hs]
    refine ⟨rfl, findFile_filter_self fid st.files, chunks_filter_self fid st.chunks,
      rdGet_rdDel_self _ _, ?_⟩
    simp only [abortUpload, findFile_filter_self fid st.files]
    rw [if_neg (by push_neg; exact ⟨hu, hf⟩)]

/-- Witness for the amended C6 on a state with one file, one chunk, and one
session entry. -/
theorem abort_idempotent_cleanup_witness :
    (abortUpload "U" "f"
        ⟨[⟨"f", "n", "t", some 7, "k", FileStatus.UPLOADING, "u"⟩],
          [⟨"f", 0, 7, "k", none, ChunkStatus.PENDING⟩],
          [("upload:U", ⟨"b", "k"⟩)], ["U"]⟩).1 = 200 ∧
    findFile "f" (abortUpload "U" "f"
        ⟨[⟨"f", "n", "t", some 7, "k", FileStatus.UPLOADING, "u"⟩],
          [⟨"f", 0, 7, "k", none, ChunkStatus.PENDING⟩],
          [("upload:U", ⟨"b", "k"⟩)], ["U"]⟩).2.files = none ∧
    rdGet "upload:U" (abortUpload "U" "f"
        ⟨[⟨"f", "n", "t", some 7, "k", FileStatus.UPLOADING, "u"⟩],
          [⟨"f", 0, 7, "k", none, ChunkStatus.PENDING⟩],
          [("upload:U", ⟨"b", "k"⟩)], ["U"]⟩).2.redis = none := by
  have h := abort_idempotent_cleanup
    ⟨[⟨"f", "n", "t", some 7, "k", FileStatus.UPLOADING, "u"⟩],
      [⟨"f", 0, 7, "k", none, ChunkStatus.PENDING⟩],
      [("upload:U", ⟨"b", "k"⟩)], ["U"]⟩
    "U" "f" (by decide) (by decide)
    ⟨"f", "n", "t", some 7, "k", FileStatus.UPLOADING, "u"⟩ rfl
  exact ⟨h.1, h.2.1, h.2.2.2.1⟩

/-! ## Complete lemmas -/

/-- Happy-path computation of `completeUpload`: live session, object store
accepts the client's parts list, metadata row present. -/
theorem completeUpload_happy (st : SysState) (uploadId fileId : String)
    (parts : List UploadPart) (hu : uploadId ≠ "") (hf : fileId ≠ "")
    (sess : SessionVal) (hsess : rdGet ("upload:" ++ uploadId) st.redis = some sess)
    (m : FileMeta) (hm : findFile fileId st.files = some m) :
    completeUpload true uploadId (some parts) fileId st = (200,
      { st with
        openUploads := st.openUploads.erase uploadId
        files := st.files.map (setStatusFun fileId FileStatus.UPLOADED)
        redis := rdDel ("upload:" ++ uploadId) st.redis }) := by
  have hsome : (findFile fileId st.files).isSome = true := by
    rw [hm]
    rfl
  have hupd : updateFileStatus fileId FileStatus.UPLOADED st.files =
      some (st.files.map (setStatusFun fileId FileStatus.UPLOADED)) := by
    unfold updateFileStatus
    rw [if_pos hsome]
  simp only [completeUpload, hsess]
  rw [if_neg (by push_neg; exact ⟨hu, by simp, hf⟩)]
  rw [if_neg (by simp)]
  rw [hupd]

/-- C7: complete never consults the Chunk table.  With a live Session entry
and an existing FileMetadata row, and the object store accepting the
client-supplied parts list (any list, a strict subset of the file's parts
included), complete answers 200, deletes the Session entry and marks the
metadata `UPLOADED` — while the Chunk table is neither read (the HTTP outcome
is identical for every possible chunk-table contents) nor written. -/
theorem complete_ignores_chunks (st : SysState) (uploadId fileId : String)
    (parts : List UploadPart) (hu : uploadId ≠ "") (hf : fileId ≠ "")
    (sess : SessionVal) (hsess : rdGet ("upload:" ++ uploadId) st.redis = some sess)
    (m : FileMeta) (hm : findFile fileId st.files = some m) :
    (completeUpload true uploadId (some parts) fileId st).1 = 200 ∧
    rdGet ("upload:" ++ uploadId)
      (completeUpload true uploadId (some parts) fileId st).2.redis = none ∧
    (∀ m2, findFile fileId (completeUpload true uploadId (some parts) fileId st).2.files =
      some m2 → m2.status = FileStatus.UPLOADED) ∧
    (completeUpload true uploadId (some parts) fileId st).2.chunks = st.chunks ∧
    (∀ chunks2 : List ChunkRow,
      (completeUpload true uploadId (some parts) fileId
        { st with chunks := chunks2 }).1 =
      (completeUpload true uploadId (some parts) fileId st).1) := by
  have e := completeUpload_happy st uploadId fileId parts hu hf sess hsess m hm
  rw [e]
  refine ⟨rfl, rdGet_rdDel_self _ _, ?_, rfl, ?_⟩
  · intro m2 hfind2
    have hfind20 : (st.files.map (setStatusFun fileId FileStatus.UPLOADED)).find?
        (fun x => x.fileId == fileId) = some m2 := hfind2
    have hmid : m2.fileId = fileId := by
      have h := List.find?_some (p := fun x : FileMeta => x.fileId == fileId) hfind20
      simpa using h
    obtain ⟨a, _, rfl⟩ := List.mem_map.mp (List.mem_of_find?_eq_some hfind20)
    have ha : a.fileId = fileId := by
      rw [← setStatusFun_fileId fileId FileStatus.UPLOADED a]
      exact hmid
    unfold setStatusFun
    rw [if_pos (by simp [ha])]
  · intro chunks2
    have e2 := completeUpload_happy { st with chunks := chunks2 } uploadId fileId parts
      hu hf sess hsess m hm
    rw [e2]

/-- Witness for C7: completing with an empty parts list on a state whose only
chunk row is still `PENDING` succeeds and marks the file `UPLOADED`. -/
theorem complete_ignores_chunks_witness :
    (completeUpload true "U" (some []) "f"
        ⟨[⟨"f", "n", "t", some 7, "k", FileStatus.UPLOADING, "u"⟩],
          [⟨"f", 0, 7, "k", none, ChunkStatus.PENDING⟩],
          [("upload:U", ⟨"b", "k"⟩)], ["U"]⟩).1 = 200 ∧
    rdGet "upload:U" (completeUpload true "U" (some []) "f"
        ⟨[⟨"f", "n", "t", some 7, "k", FileStatus.UPLOADING, "u"⟩],
          [⟨"f", 0, 7, "k", none, ChunkStatus.PENDING⟩],
          [("upload:U", ⟨"b", "k"⟩)], ["U"]⟩).2.redis = none ∧
    (completeUpload true "U" (some []) "f"
        ⟨[⟨"f", "n", "t", some 7, "k", FileStatus.UPLOADING, "u"⟩],
          [⟨"f", 0, 7, "k", none, ChunkStatus.PENDING⟩],
          [("upload:U", ⟨"b", "k"⟩)], ["U"]⟩).2.chunks =
      [⟨"f", 0, 7, "k", none, ChunkStatus.PENDING⟩] := by
  have h := complete_ignores_chunks
    ⟨[⟨"f", "n", "t", some 7, "k", FileStatus.UPLOADING, "u"⟩],
      [⟨"f", 0, 7, "k", none, ChunkStatus.PENDING⟩],
      [("upload:U", ⟨"b", "k"⟩)], ["U"]⟩
    "U" "f" [] (by decide) (by decide) ⟨"b", "k"⟩ rfl
    ⟨"f", "n", "t", some 7, "k", FileStatus.UPLOADING, "u"⟩ rfl
  exact ⟨h.1, h.2.1, h.2.2.2.1⟩

/-! ## Client abort-guard lemmas -/

theorem clientStep_called (e : ClientEvent) (st : UploaderState)
    (h : st.abortCalled = true) :
    (clientStep e st).abortCalled = true ∧
    (clientStep e st).abortRequests = st.abortRequests := by
  cases e with
  | cancel =>
    simp only [clientStep, cancelWithCleanup, clientAbortUpload]
    rw [if_neg (by simp [h])]
    exact ⟨h, rfl⟩
  | uploadFailure msg =>
    simp only [clientStep, uploadCatchCleanup]
    rw [if_neg (by simp [h])]
    exact ⟨h, rfl⟩

theorem clientRun_called (evs : List ClientEvent) :
    ∀ st : UploaderState, st.abortCalled = true →
      (clientRun evs st).abortCalled = true ∧
      (clientRun evs st).abortRequests = st.abortRequests := by
  induction evs with
  | nil => exact fun st h => ⟨h, rfl⟩
  | cons e rest ih =>
    intro st h
    have hs := clientStep_called e st h
    have hr := ih (clientStep e st) hs.1
    exact ⟨hr.1, hr.2.trans hs.2⟩

theorem clientStep_bound (e : ClientEvent) (st : UploaderState)
    (h1 : st.abortCalled = false → st.abortRequests = 0)
    (h2 : st.abortRequests ≤ 1) :
    ((clientStep e st).abortCalled = false → (clientStep e st).abortRequests = 0) ∧
    (clientStep e st).abortRequests ≤ 1 := by
  cases e with
  | cancel =>
    simp only [clientStep, cancelWithCleanup, clientAbortUpload]
    split
    · split
      · exact ⟨h1, h2⟩
      · rename_i hnc
        have h0 : st.abortRequests = 0 := h1 (by simpa using hnc)
        exact ⟨fun h => absurd h (by simp), by simp [h0]⟩
    · exact ⟨h1, h2⟩
  | uploadFailure msg =>
    simp only [clientStep, uploadCatchCleanup, clientAbortUpload]
    split
    · split
      · exact ⟨h1, h2⟩
      · rename_i hnc
        have h0 : st.abortRequests = 0 := h1 (by simpa using hnc)
        exact ⟨fun h => absurd h (by simp), by simp [h0]⟩
    · exact ⟨h1, h2⟩

theorem clientRun_bound (evs : List ClientEvent) :
    ∀ st : UploaderState, (st.abortCalled = false → st.abortRequests = 0) →
      st.abortRequests ≤ 1 → (clientRun evs st).abortRequests ≤ 1 := by
  induction evs with
  | nil => exact fun st _ h2 => h2
  | cons e rest ih =>
    intro st h1 h2
    have hs := clientStep_bound e st h1 h2
    exact ih (clientStep e st) hs.1 hs.2

/-- C8: within one upload attempt, cancellation triggers exactly one abort
request.  From a fresh attempt (`abortCalled = false`, no abort request yet)
with a known non-empty uploadId, `cancelWithCleanup` issues one abort request
and every later event — concurrent parts unwinding with the cancellation
message included — leaves the count at one; moreover from any guarded start
the abort endpoint is hit at most once, and a part that observes the
cancellation (its failure message is "Upload cancelled by user") never
triggers the catch-block abort at all. -/
theorem cancel_abort_once :
    (∀ (st : UploaderState) (u : String) (evs : List ClientEvent),
      st.uploadId = some u → u ≠ "" → st.abortCalled = false → st.abortRequests = 0 →
      (clientRun evs (cancelWithCleanup st)).abortRequests = 1) ∧
    (∀ (evs : List ClientEvent) (st : UploaderState),
      st.abortCalled = false → st.abortRequests = 0 →
      (clientRun evs st).abortRequests ≤ 1) ∧
    (∀ st : UploaderState, uploadCatchCleanup "Upload cancelled by user" st = st) := by
  refine ⟨?_, ?_, ?_⟩
  · intro st u evs hup hu hc hr
    have e : cancelWithCleanup st =
        { st with
          signalAborted := true
          abortCalled := true
          abortRequests := st.abortRequests + 1 } := by
      simp only [cancelWithCleanup, clientAbortUpload]
      rw [if_pos ⟨by simp [hup, jsTruthy, hu], by simp [hc]⟩]
      rw [if_neg (by simp [hc])]
    rw [e]
    have h2 := clientRun_called evs
      { st with
        signalAborted := true
        abortCalled := true
        abortRequests := st.abortRequests + 1 } rfl
    rw [h2.2, hr]
  · intro evs st h1 h2
    exact clientRun_bound evs st (fun _ => h2) (by rw [h2]; omega)
  · intro st
    unfold uploadCatchCleanup
    rw [if_neg (fun hcond => hcond.2.1 rfl)]

/-- Witness for C8: cancelling once, then a concurrent part observing the
cancellation, leaves exactly one abort request issued. -/
theorem cancel_abort_once_witness :
    (clientRun [ClientEvent.uploadFailure "Upload cancelled by user", ClientEvent.cancel]
      (cancelWithCleanup ⟨some "U", false, false, 0⟩)).abortRequests = 1 ∧
    uploadCatchCleanup "Upload cancelled by user" ⟨some "U", false, false, 0⟩ =
      ⟨some "U", false, false, 0⟩ :=
  ⟨cancel_abort_once.1 ⟨some "U", false, false, 0⟩ "U"
      [ClientEvent.uploadFailure "Upload cancelled by user", ClientEvent.cancel]
      rfl (by decide) rfl rfl,
    cancel_abort_once.2.2 ⟨some "U", false, false, 0⟩⟩

/-! ## Retry-loop theorems -/

/-- Counterexample to C9 as stated: with 3 total attempts there are only two
backoff delays; a run in which every attempt fails sleeps 1000 ms and 2000 ms
— the claimed third 4-second delay never occurs, because no delay follows the
final attempt. -/
theorem makeRequest_delays_counterexample :
    (makeRequest (fun _ => false) (fun _ => false) 3).delays = [1000, 2000] ∧
    ¬ (makeRequest (fun _ => false) (fun _ => false) 3).delays =
      [1000, 2000, 4000] := by
  exact ⟨rfl, by decide⟩

/-- C9 amended: calls made through `makeRequest` (initiate, record-chunk and
complete — the abort endpoint bypasses it with a single non-retried fetch) are
attempted up to 3 times; the delay after failed attempt `k` is `2^k` seconds,
so the delays actually performed are 1s and then 2s; a call failing twice and
succeeding on the 3rd attempt returns that success to the caller; the stored
last error is raised precisely when all 3 attempts fail. -/
theorem makeRequest_retry (ok : Nat → Bool) :
    (ok 0 = false → ok 1 = false → ok 2 = true →
      makeRequest (fun _ => false) ok 3 = ⟨MkOutcome.success 2, [1000, 2000]⟩) ∧
    (ok 0 = true → makeRequest (fun _ => false) ok 3 = ⟨MkOutcome.success 0, []⟩) ∧
    (ok 0 = false → ok 1 = true →
      makeRequest (fun _ => false) ok 3 = ⟨MkOutcome.success 1, [1000]⟩) ∧
    ((makeRequest (fun _ => false) ok 3).outcome = MkOutcome.failure ↔
      (ok 0 = false ∧ ok 1 = false ∧ ok 2 = false)) := by
  refine ⟨?_, ?_, ?_, ?_⟩
  · intro h0 h1 h2
    simp [makeRequest, makeRequestGo, h0, h1, h2]
  · intro h0
    simp [makeRequest, makeRequestGo, h0]
  · intro h0 h1
    simp [makeRequest, makeRequestGo, h0, h1]
  · cases h0 : ok 0 <;> cases h1 : ok 1 <;> cases h2 : ok 2 <;>
      simp [makeRequest, makeRequestGo, h0, h1, h2]

/-- Witness for the amended C9: failing twice then succeeding on the third
attempt yields that success after delays of 1s and 2s. -/
theorem makeRequest_retry_witness :
    makeRequest (fun _ => false) (fun n => n == 2) 3 =
      ⟨MkOutcome.success 2, [1000, 2000]⟩ :=
  (makeRequest_retry (fun n => n == 2)).1 rfl rfl rfl

end Dropfiles
